import Mathlib

set_option maxHeartbeats 1000000
set_option maxRecDepth 8000

/-!
Shallow embedding of the dingo DNS client message codec
(src/message.rs, src/message/header.rs, src/message/question.rs,
src/parse.rs, src/dns_types.rs) and proofs about the behaviour of its
encoder and decoder.  Bytes are modelled as natural numbers below 256,
buffers as lists of bytes, and the nom bit-level header parsing as lists
of bits (most significant bit first).
-/

namespace Dingo

/-- Outcome of running a piece of the Rust code: a successful value, a
recoverable nom error (the Err case of IResult, propagated by the question
mark operator), a Rust panic (unwrap of an Err, a failed assert, or an
out-of-bounds slice index), or divergence, meaning the computation does not
finish within any bound. -/
inductive PRes (α : Type) where
  | ok : α → PRes α
  | err : PRes α
  | panicked : PRes α
  | diverged : PRes α
deriving DecidableEq

/-- Sequencing of fallible steps: ok feeds the continuation, every failure
mode short-circuits, matching how question-mark propagation behaves in the
Rust parsers. -/
def PRes.bind {α β : Type} : PRes α → (α → PRes β) → PRes β
  | .ok a, f => f a
  | .err, _ => .err
  | .panicked, _ => .panicked
  | .diverged, _ => .diverged

@[simp] theorem PRes.bind_ok {α β : Type} (a : α) (f : α → PRes β) :
    PRes.bind (.ok a) f = f a := rfl

@[simp] theorem PRes.bind_err {α β : Type} (f : α → PRes β) :
    PRes.bind .err f = .err := rfl

@[simp] theorem PRes.bind_panicked {α β : Type} (f : α → PRes β) :
    PRes.bind .panicked f = .panicked := rfl

@[simp] theorem PRes.bind_diverged {α β : Type} (f : α → PRes β) :
    PRes.bind .diverged f = .diverged := rfl

/-- The eight bits of a byte, most significant bit first, matching the
Msb0 bit order used by the bitvec crate and by nom bit parsing. -/
def byteBits (b : Nat) : List Nat :=
  [b / 128 % 2, b / 64 % 2, b / 32 % 2, b / 16 % 2,
   b / 8 % 2, b / 4 % 2, b / 2 % 2, b % 2]

/-- A byte buffer viewed as a bit stream, as nom bits::bits does. -/
def bitsOf : List Nat → List Nat
  | [] => []
  | b :: bs => byteBits b ++ bitsOf bs

/-- Numeric value of a bit string, most significant bit first. -/
def bitsVal (l : List Nat) : Nat := l.foldl (fun acc b => 2 * acc + b) 0

/-- Model of the nom bit-level take used by parser_utils.rs: read n bits,
most significant first, failing when fewer than n bits remain. -/
def takeBits (n : Nat) (i : List Nat) : PRes (List Nat × Nat) :=
  if n ≤ i.length then .ok (i.drop n, bitsVal (i.take n)) else .err

/-- Opcode, as in src/message/header.rs. -/
inductive Opcode where
  | query
  | inverseQuery
  | status
deriving DecidableEq

/-- TryFrom of u8 for Opcode in header.rs: 0, 1, 2 map to the variants,
anything else is an error. -/
def Opcode.tryFrom : Nat → Option Opcode
  | 0 => some .query
  | 1 => some .inverseQuery
  | 2 => some .status
  | _ => none

/-- The numeric tag written by Opcode::serialize. -/
def Opcode.num : Opcode → Nat
  | .query => 0
  | .inverseQuery => 1
  | .status => 2

/-- ResponseCode, as in src/message/header.rs. -/
inductive ResponseCode where
  | noError
  | formatError
  | serverFailure
  | nameError
  | notImplemented
  | refused
deriving DecidableEq

/-- TryFrom of u8 for ResponseCode in header.rs: 0 to 5 map to the
variants, anything else is an error. -/
def ResponseCode.tryFrom : Nat → Option ResponseCode
  | 0 => some .noError
  | 1 => some .formatError
  | 2 => some .serverFailure
  | 3 => some .nameError
  | 4 => some .notImplemented
  | 5 => some .refused
  | _ => none

/-- The numeric tag written by ResponseCode::serialize. -/
def ResponseCode.num : ResponseCode → Nat
  | .noError => 0
  | .formatError => 1
  | .serverFailure => 2
  | .nameError => 3
  | .notImplemented => 4
  | .refused => 5

/-- The DNS message header of src/message/header.rs.  Field names follow
the Rust struct; the four counts are u16 values. -/
structure Header where
  id : Nat
  is_query : Bool
  opcode : Opcode
  authoritative_answer : Bool
  truncation : Bool
  recursion_desired : Bool
  recursion_available : Bool
  resp_code : ResponseCode
  question_count : Nat
  answer_count : Nat
  name_server_count : Nat
  additional_records_count : Nat
deriving DecidableEq

/-- Header::new_query of header.rs: qr false, opcode Query, rd true, all
other flags false, NoError, one question, no records. -/
def Header.new_query (id : Nat) : Header :=
  { id := id
    is_query := false
    opcode := .query
    authoritative_answer := false
    truncation := false
    recursion_desired := true
    recursion_available := false
    resp_code := .noError
    question_count := 1
    answer_count := 0
    name_server_count := 0
    additional_records_count := 0 }

/-- Bit of a boolean flag. -/
def boolBit (b : Bool) : Nat := if b then 1 else 0

/-- Header::serialize of header.rs, viewed at the byte level: it writes,
bit by bit, id (16), qr (1), opcode (4), aa, tc, rd, ra (1 each), three
zero Z bits, rcode (4), then the four 16-bit counts, 96 bits in total.
Grouping those bits in eights gives the twelve bytes below. -/
def Header.serialize (h : Header) : List Nat :=
  [h.id / 256, h.id % 256,
   128 * boolBit h.is_query + 8 * h.opcode.num + 4 * boolBit h.authoritative_answer
     + 2 * boolBit h.truncation + boolBit h.recursion_desired,
   128 * boolBit h.recursion_available + h.resp_code.num,
   h.question_count / 256, h.question_count % 256,
   h.answer_count / 256, h.answer_count % 256,
   h.name_server_count / 256, h.name_server_count % 256,
   h.additional_records_count / 256, h.additional_records_count % 256]

/-- Header::deserialize of header.rs, on the bit stream: reads the fields
in wire order; an unknown opcode or response code is a nom error; each of
the three reserved Z bits is checked with an assert, so a non-zero Z bit
is a PANIC, not an error result. -/
def Header.deserialize (i : List Nat) : PRes (List Nat × Header) :=
  PRes.bind (takeBits 16 i) fun (i, idv) =>
  PRes.bind (takeBits 1 i) fun (i, qr) =>
  PRes.bind (takeBits 4 i) fun (i, opn) =>
  match Opcode.tryFrom opn with
  | none => .err
  | some opcode =>
  PRes.bind (takeBits 1 i) fun (i, aa) =>
  PRes.bind (takeBits 1 i) fun (i, tc) =>
  PRes.bind (takeBits 1 i) fun (i, rd) =>
  PRes.bind (takeBits 1 i) fun (i, ra) =>
  PRes.bind (takeBits 1 i) fun (i, z1) =>
  if z1 ≠ 0 then .panicked else
  PRes.bind (takeBits 1 i) fun (i, z2) =>
  if z2 ≠ 0 then .panicked else
  PRes.bind (takeBits 1 i) fun (i, z3) =>
  if z3 ≠ 0 then .panicked else
  PRes.bind (takeBits 4 i) fun (i, rcn) =>
  match ResponseCode.tryFrom rcn with
  | none => .err
  | some rcode =>
  PRes.bind (takeBits 16 i) fun (i, qd) =>
  PRes.bind (takeBits 16 i) fun (i, an) =>
  PRes.bind (takeBits 16 i) fun (i, ns) =>
  PRes.bind (takeBits 16 i) fun (i, ar) =>
  .ok (i, { id := idv
            is_query := qr ≠ 0
            opcode := opcode
            authoritative_answer := aa ≠ 0
            truncation := tc ≠ 0
            recursion_desired := rd ≠ 0
            recursion_available := ra ≠ 0
            resp_code := rcode
            question_count := qd
            answer_count := an
            name_server_count := ns
            additional_records_count := ar })

/-- RecordType, as in src/dns_types.rs. -/
inductive RecordType where
  | a
  | aaaa
  | cname
  | soa
  | ns
deriving DecidableEq

/-- The numeric tag written by RecordType::serialize in dns_types.rs:
A is 1, AAAA is 28, CNAME is 5, SOA is 6, NS is 2. -/
def RecordType.num : RecordType → Nat
  | .a => 1
  | .aaaa => 28
  | .cname => 5
  | .soa => 6
  | .ns => 2

/-- TryFrom of u16 for RecordType in dns_types.rs; any other numeric type
is an error. -/
def RecordType.tryFrom : Nat → Option RecordType
  | 1 => some .a
  | 28 => some .aaaa
  | 5 => some .cname
  | 6 => some .soa
  | 2 => some .ns
  | _ => none

/-- Class, as in src/dns_types.rs: only IN is supported. -/
inductive Class where
  | IN
deriving DecidableEq

/-- TryFrom of u16 for Class in dns_types.rs: only 1 maps to IN. -/
def Class.tryFrom : Nat → Option Class
  | 1 => some .IN
  | _ => none

/-- An AsciiString built from raw bytes, each below 128. -/
def stringOfBytes (bs : List Nat) : String := ⟨bs.map Char.ofNat⟩

/-- The bytes of an ASCII string, one byte per character. -/
def bytesOfString (s : String) : List Nat := s.data.map Char.toNat

/-- be_u8 of nom on a byte list. -/
def be_u8 : List Nat → PRes (List Nat × Nat)
  | b :: rest => .ok (rest, b)
  | _ => .err

/-- be_u16 of nom on a byte list: two bytes, big endian. -/
def be_u16 : List Nat → PRes (List Nat × Nat)
  | b0 :: b1 :: rest => .ok (rest, b0 * 256 + b1)
  | _ => .err

/-- be_u32 of nom on a byte list: four bytes, big endian. -/
def be_u32 : List Nat → PRes (List Nat × Nat)
  | b0 :: b1 :: b2 :: b3 :: rest =>
      .ok (rest, ((b0 * 256 + b1) * 256 + b2) * 256 + b3)
  | _ => .err

/-- parse_label of src/parse.rs: one length byte, which must be at most
63, then that many bytes, which must all be ASCII; the result is the label
as a string. -/
def parse_label : List Nat → PRes (List Nat × String)
  | [] => .err
  | len :: rest =>
    if 64 ≤ len then .err
    else if rest.length < len then .err
    else if (rest.take len).all (· < 128) then
      .ok (rest.drop len, stringOfBytes (rest.take len))
    else .err

/-- Loop body of parse_labels_then_zero of src/parse.rs.  The Rust loop
consumes at least one byte per iteration, so running it with a counter one
larger than the input length is exactly the loop; the counter never
reaches zero. -/
def plz_aux : Nat → List Nat → PRes (List Nat × List String)
  | 0, _ => .diverged
  | n + 1, i =>
    match parse_label i with
    | .ok (rest, label) =>
      if label.isEmpty then .ok (rest, [label])
      else
        match plz_aux n rest with
        | .ok (rest2, labels) => .ok (rest2, label :: labels)
        | .err => .err
        | .panicked => .panicked
        | .diverged => .diverged
    | .err => .err
    | .panicked => .panicked
    | .diverged => .diverged

/-- parse_labels_then_zero of src/parse.rs: a sequence of labels
terminated by (and including) a zero-length label. -/
def parse_labels_then_zero (i : List Nat) : PRes (List Nat × List String) :=
  plz_aux (i.length + 1) i

/-- A question-section entry, as in src/message/question.rs.  The labels
include the terminal empty label when one was parsed or supplied. -/
structure Entry where
  labels : List String
  record_type : RecordType
  record_qclass : Class
deriving DecidableEq

/-- Entry::new of question.rs: class is always IN. -/
def Entry.new (labels : List String) (rt : RecordType) : Entry :=
  ⟨labels, rt, .IN⟩

/-- serialize_qname of question.rs: for each label, a length byte, which
must be below 64 or the whole serialization errors, followed by the bytes
of the label.  No terminating zero byte is appended beyond the labels
themselves. -/
def serialize_qname : List String → PRes (List Nat)
  | [] => .ok []
  | l :: ls =>
    if 64 ≤ l.length then .err
    else
      PRes.bind (serialize_qname ls) fun bs =>
        .ok ((l.length :: bytesOfString l) ++ bs)

/-- Entry::serialize of question.rs: qname, then the 16-bit record type
tag, then the 16-bit class tag (IN is 1). -/
def Entry.serialize (e : Entry) : PRes (List Nat) :=
  PRes.bind (serialize_qname e.labels) fun q =>
    .ok (q ++ [e.record_type.num / 256, e.record_type.num % 256, 0, 1])

/-- Entry::deserialize of question.rs: labels up to and including the zero
label, then record type and class through their numeric lookup tables. -/
def Entry.deserialize (i : List Nat) : PRes (List Nat × Entry) :=
  PRes.bind (parse_labels_then_zero i) fun (i, labels) =>
  PRes.bind (be_u16 i) fun (i, tn) =>
  match RecordType.tryFrom tn with
  | none => .err
  | some rt =>
  PRes.bind (be_u16 i) fun (i, cn) =>
  match Class.tryFrom cn with
  | none => .err
  | some c => .ok (i, ⟨labels, rt, c⟩)

/-- SOA record data, as used by MsgParser::parse_rdata in src/message.rs. -/
structure SoaData where
  mname : String
  rname : String
  serial : Nat
  refresh : Nat
  retry : Nat
  expire : Nat
deriving DecidableEq

/-- Record data, tagged by record type.  An IPv4 address is its four
bytes; an IPv6 address is its sixteen bytes. -/
inductive RecordData where
  | a : Nat → Nat → Nat → Nat → RecordData
  | aaaa : List Nat → RecordData
  | cname : String → RecordData
  | ns : String → RecordData
  | soa : SoaData → RecordData
deriving DecidableEq

/-- A resource record as built by MsgParser::parse_record in
src/message.rs: name, class, ttl and data (the record type is consumed
but not stored). -/
structure Record where
  name : String
  rclass : Class
  ttl : Nat
  data : RecordData
deriving DecidableEq

/-- MsgParser::parse_name of src/message.rs.  msg is the whole message
buffer held by the parser, input the suffix being read.  A first byte with
its two high bits set is a compression pointer: the 14 remaining bits are
an absolute offset, the name at that offset is parsed recursively against
the whole buffer, and the pointer ends the label sequence.  The recursive
call re-slices the whole buffer, which PANICS when the offset is past the
end, and its result is unwrapped, so a nom error below a pointer also
PANICS.  There is no bound on pointer chasing in the source; the fuel
argument only serves to make the recursion well defined, and exhausting it
for every fuel value is how this embedding expresses non-termination. -/
def parse_name (msg : List Nat) : Nat → List Nat → PRes (List Nat × String)
  | 0, _ => .diverged
  | fuel + 1, input =>
    match input with
    | [] => .err
    | first :: _ =>
      if 192 ≤ first then
        match input with
        | b0 :: b1 :: rest =>
          let off := b0 * 256 + b1 - 49152
          if off ≤ msg.length then
            match parse_name msg fuel (msg.drop off) with
            | .ok (_, pointed) => .ok (rest, pointed)
            | .err => .panicked
            | .panicked => .panicked
            | .diverged => .diverged
          else .panicked
        | _ => .err
      else
        match parse_label input with
        | .ok (rest, label) =>
          if label.isEmpty then .ok (rest, label)
          else
            match parse_name msg fuel rest with
            | .ok (rest2, restName) => .ok (rest2, label ++ "." ++ restName)
            | .err => .err
            | .panicked => .panicked
            | .diverged => .diverged
        | .err => .err
        | .panicked => .panicked
        | .diverged => .diverged

/-- Modelled from the spec: the AAAA arm of MsgParser::parse_rdata is not
present in the source snapshot (the match in src/message.rs covers only A,
CNAME and SOA even though dns_types.rs declares Aaaa).  Spec 4.5: AAAA is
exactly 16 bytes giving an IPv6 address. -/
def parse_rdata_aaaa (i : List Nat) : PRes (List Nat × RecordData) :=
  if i.length < 16 then .err else .ok (i.drop 16, .aaaa (i.take 16))

/-- Modelled from the spec: the NS arm of MsgParser::parse_rdata is not
present in the source snapshot (the match in src/message.rs covers only A,
CNAME and SOA even though dns_types.rs declares Ns).  Spec 4.5: CNAME and
NS are one Name, decoded against the whole-message buffer since RDATA
names may themselves be compressed. -/
def parse_rdata_ns (msg : List Nat) (fuel : Nat) (i : List Nat) :
    PRes (List Nat × RecordData) :=
  PRes.bind (parse_name msg fuel i) fun (i, n) => .ok (i, .ns n)

/-- MsgParser::parse_rdata of src/message.rs: dispatch on the record type.
A reads four bytes as an IPv4 address; CNAME reads one name against the
whole buffer; SOA reads two names and four 32-bit integers.  The AAAA and
NS arms come from the spec-modelled definitions above. -/
def parse_rdata (msg : List Nat) (fuel : Nat) (rt : RecordType)
    (i : List Nat) : PRes (List Nat × RecordData) :=
  match rt with
  | .a =>
    PRes.bind (be_u8 i) fun (i, b0) =>
    PRes.bind (be_u8 i) fun (i, b1) =>
    PRes.bind (be_u8 i) fun (i, b2) =>
    PRes.bind (be_u8 i) fun (i, b3) =>
    .ok (i, .a b0 b1 b2 b3)
  | .cname =>
    PRes.bind (parse_name msg fuel i) fun (i, n) => .ok (i, .cname n)
  | .soa =>
    PRes.bind (parse_name msg fuel i) fun (i, mname) =>
    PRes.bind (parse_name msg fuel i) fun (i, rname) =>
    PRes.bind (be_u32 i) fun (i, serial) =>
    PRes.bind (be_u32 i) fun (i, refresh) =>
    PRes.bind (be_u32 i) fun (i, retryv) =>
    PRes.bind (be_u32 i) fun (i, expire) =>
    .ok (i, .soa ⟨mname, rname, serial, refresh, retryv, expire⟩)
  | .aaaa => parse_rdata_aaaa i
  | .ns => parse_rdata_ns msg fuel i

/-- The length_value(be_u16, parse_rdata) combinator of nom, as used by
MsgParser::parse_record: read a 16-bit length, fail when fewer bytes than
that remain, run the inner parser on exactly that window, and on success
drop the whole window from the stream regardless of how much of it the
inner parser consumed. -/
def length_value_rdata (msg : List Nat) (fuel : Nat) (rt : RecordType)
    (i : List Nat) : PRes (List Nat × RecordData) :=
  PRes.bind (be_u16 i) fun (i, len) =>
  if i.length < len then .err
  else
    match parse_rdata msg fuel rt (i.take len) with
    | .ok (_, rd) => .ok (i.drop len, rd)
    | .err => .err
    | .panicked => .panicked
    | .diverged => .diverged

/-- MsgParser::parse_record of src/message.rs: name, record type through
its lookup table, class, a 32-bit TTL rejected when above the largest
positive signed 32-bit value, then length-delimited RDATA. -/
def parse_record (msg : List Nat) (fuel : Nat) (i : List Nat) :
    PRes (List Nat × Record) :=
  PRes.bind (parse_name msg fuel i) fun (i, name) =>
  PRes.bind (be_u16 i) fun (i, tn) =>
  match RecordType.tryFrom tn with
  | none => .err
  | some rt =>
  PRes.bind (be_u16 i) fun (i, cn) =>
  match Class.tryFrom cn with
  | none => .err
  | some cl =>
  PRes.bind (be_u32 i) fun (i, ttl) =>
  if 2147483647 < ttl then .err
  else
    PRes.bind (length_value_rdata msg fuel rt i) fun (i, rdata) =>
    .ok (i, ⟨name, cl, ttl, rdata⟩)

/-- The nom count combinator applied to Entry::deserialize: parse exactly
n question entries. -/
def countEntries : Nat → List Nat → PRes (List Nat × List Entry)
  | 0, i => .ok (i, [])
  | n + 1, i =>
    PRes.bind (Entry.deserialize i) fun (i, e) =>
    PRes.bind (countEntries n i) fun (i, es) => .ok (i, e :: es)

/-- The nom count combinator applied to MsgParser::parse_record: parse
exactly n resource records against the whole-message buffer. -/
def countRecords (msg : List Nat) (fuel : Nat) :
    Nat → List Nat → PRes (List Nat × List Record)
  | 0, i => .ok (i, [])
  | n + 1, i =>
    PRes.bind (parse_record msg fuel i) fun (i, r) =>
    PRes.bind (countRecords msg fuel n i) fun (i, rs) => .ok (i, r :: rs)

/-- A decoded DNS message, as in src/message.rs. -/
structure Message where
  header : Header
  question : List Entry
  answer : List Record
  authority : List Record
  additional : List Record
deriving DecidableEq

/-- MsgParser::parse_message of src/message.rs: header through the
bit-level parser (which consumes exactly twelve bytes when it succeeds),
then question_count entries and the three record sections, each counted by
the corresponding header field. -/
def parse_message (msg : List Nat) (fuel : Nat) (i : List Nat) :
    PRes (List Nat × Message) :=
  match Header.deserialize (bitsOf i) with
  | .ok (_, h) =>
    PRes.bind (countEntries h.question_count (i.drop 12))
      fun (i, qs) =>
    PRes.bind (countRecords msg fuel h.answer_count i) fun (i, ans) =>
    PRes.bind (countRecords msg fuel h.name_server_count i) fun (i, auth) =>
    PRes.bind (countRecords msg fuel h.additional_records_count i)
      fun (i, add) =>
    .ok (i, ⟨h, qs, ans, auth, add⟩)
  | .err => .err
  | .panicked => .panicked
  | .diverged => .diverged

/-- Message::deserialize of src/message.rs.  The source UNWRAPS the result
of parse_message, so a nom error anywhere becomes a panic instead of the
error value its own signature promises. -/
def Message.deserialize (fuel : Nat) (input : List Nat) : PRes Message :=
  match parse_message input fuel input with
  | .ok (_, m) => .ok m
  | .err => .panicked
  | .panicked => .panicked
  | .diverged => .diverged

/-- Splitting a character list on the dot character, with the semantics of
the Rust split iterator: the empty input yields one empty piece, every dot
starts a new piece, and pieces may be empty. -/
def splitDot : List Char → List (List Char)
  | [] => [[]]
  | c :: rest =>
    if c = '.' then [] :: splitDot rest
    else
      match splitDot rest with
      | l :: ls => (c :: l) :: ls
      | [] => [c] :: []

/-- The dot-separated labels of a domain name string, as produced by
dn.split(AsciiChar::Dot) in Message::new_query. -/
def stringSplitDot (s : String) : List String :=
  (splitDot s.data).map fun l => String.mk l

/-- Message::new_query of src/message.rs: reject names longer than 255
bytes, non-ASCII names, and names one of whose dot-separated labels is
longer than 63 bytes; otherwise build a query header and a single question
entry whose labels are the dot-split pieces of the name. -/
def Message.new_query (id : Nat) (domain_name : String) (rt : RecordType) :
    PRes Message :=
  if 255 < domain_name.length then .err
  else if ¬ (domain_name.data.all fun c => c.toNat < 128) then .err
  else if (stringSplitDot domain_name).any (fun l => 63 < l.length) then .err
  else .ok ⟨Header.new_query id, [Entry.new (stringSplitDot domain_name) rt],
            [], [], []⟩

/-- Message::serialize_bits and serialize_bytes of src/message.rs: the
header bytes followed by each question entry in order (a query message has
no records to write). -/
def serialize_entries : List Entry → PRes (List Nat)
  | [] => .ok []
  | e :: es =>
    PRes.bind (Entry.serialize e) fun b =>
    PRes.bind (serialize_entries es) fun bs => .ok (b ++ bs)

/-- Message::serialize_bytes of src/message.rs. -/
def Message.serialize_bytes (m : Message) : PRes (List Nat) :=
  PRes.bind (serialize_entries m.question) fun qs =>
    .ok (m.header.serialize ++ qs)

/-- The CLI argument layer of src/cli.rs: when the name does not end with
the dot character, one is pushed, before the name reaches the codec
(ends_with of a char pattern inspects the last character). -/
def cli_normalize_name (s : String) : String :=
  if s.data.getLast? = some '.' then s else s ++ "."

theorem byteBits_length (b : Nat) : (byteBits b).length = 8 := rfl

theorem bitsOf_cons (b : Nat) (bs : List Nat) :
    bitsOf (b :: bs) = byteBits b ++ bitsOf bs := rfl

theorem bitsVal_foldl (l : List Nat) (a : Nat) :
    l.foldl (fun acc b => 2 * acc + b) a = a * 2 ^ l.length + bitsVal l := by
  induction l generalizing a with
  | nil => simp [bitsVal]
  | cons b t ih =>
    simp only [List.foldl_cons, List.length_cons, bitsVal]
    rw [ih (2 * a + b), ih (2 * 0 + b)]
    ring

theorem bitsVal_append (l1 l2 : List Nat) :
    bitsVal (l1 ++ l2) = bitsVal l1 * 2 ^ l2.length + bitsVal l2 := by
  simp only [bitsVal, List.foldl_append]
  rw [bitsVal_foldl l2 (List.foldl (fun acc b => 2 * acc + b) 0 l1)]
  rfl

theorem byteBits_val (b : Nat) (h : b < 256) : bitsVal (byteBits b) = b := by
  have hall : ∀ x < 256, bitsVal (byteBits x) = x := by decide
  exact hall b h

theorem takeBits_prefix (l1 l2 : List Nat) (n : Nat) (h : l1.length = n) :
    takeBits n (l1 ++ l2) = .ok (l2, bitsVal l1) := by
  subst h
  unfold takeBits
  rw [if_pos (by simp), List.take_left, List.drop_left]

theorem takeBits_one (b : Nat) (l : List Nat) :
    takeBits 1 (b :: l) = .ok (l, bitsVal [b]) :=
  takeBits_prefix [b] l 1 rfl

theorem takeBits_four (b1 b2 b3 b4 : Nat) (l : List Nat) :
    takeBits 4 (b1 :: b2 :: b3 :: b4 :: l) = .ok (l, bitsVal [b1, b2, b3, b4]) :=
  takeBits_prefix [b1, b2, b3, b4] l 4 rfl

theorem takeBits_sixteen (b1 b2 b3 b4 b5 b6 b7 b8 b9 b10 b11 b12 b13 b14 b15 b16 : Nat)
    (l : List Nat) :
    takeBits 16 (b1 :: b2 :: b3 :: b4 :: b5 :: b6 :: b7 :: b8 :: b9 :: b10 ::
        b11 :: b12 :: b13 :: b14 :: b15 :: b16 :: l)
      = .ok (l, bitsVal [b1, b2, b3, b4, b5, b6, b7, b8, b9, b10, b11, b12, b13, b14, b15, b16]) :=
  takeBits_prefix [b1, b2, b3, b4, b5, b6, b7, b8, b9, b10, b11, b12, b13, b14, b15, b16] l 16 rfl

theorem takeBits_id_bytes (hi lo : Nat) (t : List Nat) (h1 : hi < 256) (h2 : lo < 256) :
    takeBits 16 (byteBits hi ++ (byteBits lo ++ t)) = .ok (t, hi * 256 + lo) := by
  rw [← List.append_assoc,
    takeBits_prefix (byteBits hi ++ byteBits lo) t 16 (by simp [byteBits_length]),
    bitsVal_append, byteBits_val hi h1, byteBits_val lo h2, byteBits_length]
  norm_num

/-- Decoding the twelve header bytes written for a fresh query recovers
exactly the query header; whatever bytes follow are left over. -/
theorem header_roundtrip_query (hi lo : Nat) (q : List Nat)
    (h1 : hi < 256) (h2 : lo < 256) :
    Header.deserialize (bitsOf (hi :: lo :: 1 :: 0 :: 0 :: 1 :: 0 :: 0 :: 0 :: 0 :: 0 :: 0 :: q))
      = .ok (bitsOf q, Header.new_query (hi * 256 + lo)) := by
  rw [bitsOf_cons, bitsOf_cons]
  unfold Header.deserialize
  rw [takeBits_id_bytes hi lo _ h1 h2]
  simp only [PRes.bind_ok]
  simp [bitsOf, byteBits, takeBits_one, takeBits_four, takeBits_sixteen, bitsVal,
    Opcode.tryFrom, ResponseCode.tryFrom, Header.new_query]

theorem stringOfBytes_bytesOfString (l : String) :
    stringOfBytes (bytesOfString l) = l := by
  simp only [stringOfBytes, bytesOfString, List.map_map]
  have h : ∀ c : Char, (Char.ofNat ∘ Char.toNat) c = id c := fun c =>
    Char.ofNat_toNat c
  rw [List.map_congr_left fun c _ => h c, List.map_id]

theorem bytesOfString_length (l : String) :
    (bytesOfString l).length = l.length := by
  simp only [bytesOfString, List.length_map]
  rfl

/-- Reading back one serialized label: the length byte is within bounds
and the body is ASCII, so parse_label returns exactly the label. -/
theorem parse_label_roundtrip (l : String) (tail : List Nat)
    (hlen : l.length ≤ 63) (hascii : ∀ c ∈ l.data, c.toNat < 128) :
    parse_label ((l.length :: bytesOfString l) ++ tail) = .ok (tail, l) := by
  have hblen : (bytesOfString l).length = l.length := bytesOfString_length l
  simp only [List.cons_append, parse_label]
  rw [if_neg (by omega)]
  rw [if_neg (by simp [List.length_append, hblen])]
  rw [← hblen, List.take_left, List.drop_left]
  rw [if_pos]
  · rw [stringOfBytes_bytesOfString]
  · simp only [List.all_eq_true, bytesOfString, List.mem_map, decide_eq_true_eq]
    rintro b ⟨c, hc, rfl⟩
    exact hascii c hc

/-- The bytes serialize_qname writes when every label fits in a length
byte. -/
def qnameBytes : List String → List Nat
  | [] => []
  | l :: ls => (l.length :: bytesOfString l) ++ qnameBytes ls

theorem serialize_qname_eq (labels : List String)
    (h : ∀ l ∈ labels, l.length ≤ 63) :
    serialize_qname labels = .ok (qnameBytes labels) := by
  induction labels with
  | nil => rfl
  | cons l ls ih =>
    simp only [serialize_qname, qnameBytes]
    rw [if_neg (by have := h l (List.mem_cons_self l ls); omega)]
    rw [ih fun x hx => h x (List.mem_cons_of_mem l hx)]
    rfl

theorem string_ne_empty_of_length (l : String) (h : 1 ≤ l.length) :
    l.isEmpty = false := by
  rw [Bool.eq_false_iff]
  intro hemp
  rw [String.isEmpty_iff] at hemp
  subst hemp
  simp [String.length] at h

/-- Reading back a serialized label sequence whose final label is the
empty terminal label and whose other labels are nonempty recovers the
labels and leaves the tail. -/
theorem plz_aux_roundtrip (labels : List String) (n : Nat) (tail : List Nat)
    (hn : (qnameBytes labels).length < n)
    (hmid : ∀ l ∈ labels.dropLast, 1 ≤ l.length)
    (hbound : ∀ l ∈ labels, l.length ≤ 63)
    (hlast : labels.getLast? = some "")
    (hascii : ∀ l ∈ labels, ∀ c ∈ l.data, c.toNat < 128) :
    plz_aux n (qnameBytes labels ++ tail) = .ok (tail, labels) := by
  induction labels generalizing n tail with
  | nil => simp at hlast
  | cons l ls ih =>
    obtain ⟨m, rfl⟩ : ∃ m, n = m + 1 := ⟨n - 1, by omega⟩
    cases ls with
    | nil =>
      have hl : l = "" := by simpa using hlast
      subst hl
      simp only [qnameBytes, bytesOfString, String.length]
      simp only [plz_aux]
      have hp := parse_label_roundtrip "" tail (by simp [String.length]) (by simp)
      simp only [qnameBytes, bytesOfString, String.length] at hp
      simp only [List.append_nil] at hp ⊢
      rw [hp]
      rfl
    | cons l2 ls2 =>
      have hlb : 1 ≤ l.length := hmid l (by simp)
      have hplq := parse_label_roundtrip l (qnameBytes (l2 :: ls2) ++ tail)
        (hbound l (by simp)) (hascii l (by simp))
      have hql : qnameBytes (l :: l2 :: ls2) ++ tail
          = (l.length :: bytesOfString l) ++ (qnameBytes (l2 :: ls2) ++ tail) := by
        simp [qnameBytes]
      have hih : plz_aux m (qnameBytes (l2 :: ls2) ++ tail) = .ok (tail, l2 :: ls2) :=
        ih m tail
          (by simp only [qnameBytes, List.length_append, List.length_cons] at hn ⊢; omega)
          (fun x hx => hmid x (by
            rw [List.dropLast_cons_of_ne_nil (List.cons_ne_nil l2 ls2)]
            exact List.mem_cons_of_mem l hx))
          (fun x hx => hbound x (List.mem_cons_of_mem l hx))
          (by rw [← hlast, List.getLast?_cons_cons])
          (fun x hx => hascii x (List.mem_cons_of_mem l hx))
      rw [hql]
      simp only [plz_aux, hplq, string_ne_empty_of_length l hlb, Bool.false_eq_true,
        if_false, hih]

/-- parse_labels_then_zero inverts serialize_qname for a valid label
sequence. -/
theorem parse_labels_then_zero_roundtrip (labels : List String) (tail : List Nat)
    (hmid : ∀ l ∈ labels.dropLast, 1 ≤ l.length)
    (hbound : ∀ l ∈ labels, l.length ≤ 63)
    (hlast : labels.getLast? = some "")
    (hascii : ∀ l ∈ labels, ∀ c ∈ l.data, c.toNat < 128) :
    parse_labels_then_zero (qnameBytes labels ++ tail) = .ok (tail, labels) := by
  unfold parse_labels_then_zero
  exact plz_aux_roundtrip labels _ tail
    (by simp [List.length_append]; omega) hmid hbound hlast hascii

theorem splitDot_ne_nil (l : List Char) : splitDot l ≠ [] := by
  cases l with
  | nil => simp [splitDot]
  | cons c rest =>
    unfold splitDot
    by_cases h : c = '.'
    · simp [h]
    · rw [if_neg h]
      cases splitDot rest <;> simp

theorem splitDot_chars (l : List Char) (p : List Char) (hp : p ∈ splitDot l)
    (c : Char) (hc : c ∈ p) : c ∈ l := by
  induction l generalizing p with
  | nil =>
    simp only [splitDot, List.mem_singleton] at hp
    subst hp
    simp at hc
  | cons a rest ih =>
    unfold splitDot at hp
    by_cases ha : a = '.'
    · rw [if_pos ha] at hp
      rcases List.mem_cons.mp hp with h | h
      · subst h; simp at hc
      · exact List.mem_cons_of_mem a (ih p h hc)
    · rw [if_neg ha] at hp
      rcases hsp : splitDot rest with _ | ⟨l1, ls⟩
      · exact absurd hsp (splitDot_ne_nil rest)
      · rw [hsp] at hp
        rcases List.mem_cons.mp hp with h | h
        · subst h
          rcases List.mem_cons.mp hc with h | h
          · exact h ▸ List.mem_cons_self _ _
          · exact List.mem_cons_of_mem a
              (ih l1 (hsp ▸ List.mem_cons_self l1 ls) h)
        · exact List.mem_cons_of_mem a
            (ih p (hsp ▸ List.mem_cons_of_mem l1 h) hc)

theorem RecordType.num_lt (rt : RecordType) : rt.num < 256 := by
  cases rt <;> decide

theorem RecordType.tryFrom_num (rt : RecordType) :
    RecordType.tryFrom rt.num = some rt := by
  cases rt <;> rfl

/-- A valid domain name in the sense of the data model of the spec: at
most 255 bytes, ASCII, written with a trailing dot (so its last
dot-separated piece is empty), every piece at most 63 bytes and every
piece except the terminal one nonempty. -/
def ValidDomainName (s : String) : Prop :=
  s.length ≤ 255 ∧
  (∀ c ∈ s.data, c.toNat < 128) ∧
  (stringSplitDot s).getLast? = some "" ∧
  (∀ l ∈ stringSplitDot s, l.length ≤ 63) ∧
  ∀ l ∈ (stringSplitDot s).dropLast, 1 ≤ l.length

instance (s : String) : Decidable (ValidDomainName s) := by
  unfold ValidDomainName
  infer_instance

theorem new_query_ok (id : Nat) (s : String) (rt : RecordType)
    (h255 : s.length ≤ 255)
    (hascii : ∀ c ∈ s.data, c.toNat < 128)
    (hbound : ∀ l ∈ stringSplitDot s, l.length ≤ 63) :
    Message.new_query id s rt =
      .ok ⟨Header.new_query id, [Entry.new (stringSplitDot s) rt], [], [], []⟩ := by
  have hall : (s.data.all fun c => decide (c.toNat < 128)) = true := by
    rw [List.all_eq_true]
    intro c hc
    exact decide_eq_true (hascii c hc)
  have hany : ¬ ((stringSplitDot s).any (fun l => decide (63 < l.length)) = true) := by
    simp only [List.any_eq_true, decide_eq_true_eq, not_exists]
    intro l
    rintro ⟨hl, hgt⟩
    exact absurd hgt (not_lt.mpr (hbound l hl))
  unfold Message.new_query
  rw [if_neg (by omega), if_neg (not_not_intro hall), if_neg hany]

theorem serialize_query_bytes (id : Nat) (s : String) (rt : RecordType)
    (hbound : ∀ l ∈ stringSplitDot s, l.length ≤ 63) :
    Message.serialize_bytes
        ⟨Header.new_query id, [Entry.new (stringSplitDot s) rt], [], [], []⟩
      = .ok (id / 256 :: id % 256 :: 1 :: 0 :: 0 :: 1 :: 0 :: 0 :: 0 :: 0 :: 0 :: 0 ::
          (qnameBytes (stringSplitDot s) ++ [0, rt.num, 0, 1])) := by
  simp only [Message.serialize_bytes, serialize_entries, Entry.serialize, Entry.new,
    serialize_qname_eq _ hbound, PRes.bind_ok, List.append_nil,
    Header.serialize, Header.new_query, boolBit, Opcode.num, ResponseCode.num,
    Nat.div_eq_of_lt (RecordType.num_lt rt), Nat.mod_eq_of_lt (RecordType.num_lt rt)]
  norm_num

theorem deserialize_query_of_labels (id fuel : Nat) (labels : List String)
    (rt : RecordType) (hid : id < 65536)
    (hmid : ∀ l ∈ labels.dropLast, 1 ≤ l.length)
    (hbound : ∀ l ∈ labels, l.length ≤ 63)
    (hlast : labels.getLast? = some "")
    (hascii : ∀ l ∈ labels, ∀ c ∈ l.data, c.toNat < 128) :
    Message.deserialize fuel
        (id / 256 :: id % 256 :: 1 :: 0 :: 0 :: 1 :: 0 :: 0 :: 0 :: 0 :: 0 :: 0 ::
          (qnameBytes labels ++ [0, rt.num, 0, 1]))
      = .ok ⟨Header.new_query id, [Entry.new labels rt], [], [], []⟩ := by
  have hH := header_roundtrip_query (id / 256) (id % 256)
    (qnameBytes labels ++ [0, rt.num, 0, 1]) (by omega) (by omega)
  have hid2 : id / 256 * 256 + id % 256 = id := by omega
  rw [hid2] at hH
  have hplz := parse_labels_then_zero_roundtrip labels [0, rt.num, 0, 1]
    hmid hbound hlast hascii
  unfold Message.deserialize parse_message
  rw [hH]
  simp only [List.drop_succ_cons, List.drop_zero, Header.new_query,
    countEntries, countRecords, Entry.deserialize, hplz, PRes.bind_ok,
    be_u16, RecordType.tryFrom_num, Class.tryFrom, Nat.zero_mul, Nat.zero_add,
    Entry.new]

/-- C4: for every valid domain name, supported record type and 16-bit id,
decoding the bytes produced by encoding the query (Message::new_query then
serialize_bytes, then Message::deserialize) yields back the very message
that was encoded, hence in particular the same id, recursion_desired flag,
question_count and question entry. -/
theorem c4_query_roundtrip (id : Nat) (s : String) (rt : RecordType) (fuel : Nat)
    (m : Message) (bytes : List Nat)
    (hid : id < 65536) (hv : ValidDomainName s)
    (hq : Message.new_query id s rt = .ok m)
    (hs : m.serialize_bytes = .ok bytes) :
    Message.deserialize fuel bytes = .ok m ∧
    m.header.id = id ∧ m.header.recursion_desired = true ∧
    m.header.question_count = 1 ∧
    m.question = [Entry.new (stringSplitDot s) rt] := by
  obtain ⟨h255, hascii, hlast, hbound, hmid⟩ := hv
  have hlascii : ∀ l ∈ stringSplitDot s, ∀ c ∈ l.data, c.toNat < 128 := by
    intro l hl c hc
    simp only [stringSplitDot, List.mem_map] at hl
    obtain ⟨p, hp, rfl⟩ := hl
    exact hascii c (splitDot_chars s.data p hp c hc)
  rw [new_query_ok id s rt h255 hascii hbound] at hq
  injection hq with hq
  subst hq
  rw [serialize_query_bytes id s rt hbound] at hs
  injection hs with hs
  subst hs
  refine ⟨?_, rfl, rfl, rfl, rfl⟩
  exact deserialize_query_of_labels id fuel (stringSplitDot s) rt hid
    hmid hbound hlast hlascii

/-- The query message built for blog.adamchalmers.com. with id 33. -/
def c4QueryMsg : Message :=
  ⟨Header.new_query 33, [⟨["blog", "adamchalmers", "com", ""], .a, .IN⟩], [], [], []⟩

/-- The serialized bytes of that query. -/
def c4QueryBytes : List Nat :=
  [0, 33, 1, 0, 0, 1, 0, 0, 0, 0, 0, 0,
   4, 98, 108, 111, 103,
   12, 97, 100, 97, 109, 99, 104, 97, 108, 109, 101, 114, 115,
   3, 99, 111, 109, 0,
   0, 1, 0, 1]

/-- C4, witness: the round trip at id 33, name blog.adamchalmers.com.,
record type A. -/
theorem c4_query_roundtrip_witness :
    Message.deserialize 1 c4QueryBytes = .ok c4QueryMsg ∧
    c4QueryMsg.header.id = 33 ∧ c4QueryMsg.header.recursion_desired = true ∧
    c4QueryMsg.header.question_count = 1 ∧
    c4QueryMsg.question = [Entry.new (stringSplitDot "blog.adamchalmers.com.") .a] :=
  c4_query_roundtrip 33 "blog.adamchalmers.com." .a 1 c4QueryMsg c4QueryBytes
    (by decide) (by decide) (by decide) (by decide)

/-- C1: FAILS on the code.  Message::deserialize unwraps the parser
result, so a malformed buffer (here: the empty buffer, and a buffer
holding only two bytes of a header) makes the call PANIC instead of
returning the error value its Result signature promises. -/
theorem c1_deserialize_panics_on_malformed :
    (∀ fuel, Message.deserialize fuel [] = .panicked) ∧
    (∀ fuel, Message.deserialize fuel [0, 33] = .panicked) :=
  ⟨fun _ => rfl, fun _ => rfl⟩

/-- A message whose single answer record starts with the compression
pointer 0xC00C at offset 12, pointing at its own offset. -/
def c2LoopMsg : List Nat := [0, 1, 0, 0, 0, 0, 0, 1, 0, 0, 0, 0, 192, 12]

theorem parse_name_selfptr :
    ∀ fuel, parse_name [0, 1, 0, 0, 0, 0, 0, 1, 0, 0, 0, 0, 192, 12] fuel [192, 12]
      = .diverged := by
  intro fuel
  induction fuel with
  | zero => rfl
  | succ n ih => simp [parse_name, ih]

/-- C2: FAILS on the code.  MsgParser::parse_name neither checks that a
pointer target lies strictly before the pointer nor bounds the chase
depth, so a name whose pointer targets its own offset never terminates:
for every bound on the recursion the decode still has not finished,
instead of failing with a FormatError-class error. -/
theorem c2_pointer_loop_diverges :
    ∀ fuel, Message.deserialize fuel c2LoopMsg = .diverged := by
  intro fuel
  have hH : Header.deserialize
      (bitsOf [0, 1, 0, 0, 0, 0, 0, 1, 0, 0, 0, 0, 192, 12])
      = .ok ([1, 1, 0, 0, 0, 0, 0, 0, 0, 0, 0, 0, 1, 1, 0, 0],
        ⟨1, false, .query, false, false, false, false, .noError, 0, 1, 0, 0⟩) := by
    decide
  have hname := parse_name_selfptr fuel
  simp only [c2LoopMsg]
  unfold Message.deserialize parse_message
  rw [hH]
  simp [countEntries, countRecords, parse_record, hname]

/-- C3: FAILS on the code.  Header::deserialize checks each reserved Z bit
with assert, so a header whose Z field is non-zero makes decoding PANIC
rather than return a FormatError result; a header with Z = 0 decodes
fine.  The byte 16 below is 00010000 in binary: RA is 0 and the Z bits
are 001. -/
theorem c3_nonzero_z_panics :
    Header.deserialize (bitsOf [0, 0, 0, 16, 0, 0, 0, 0, 0, 0, 0, 0]) = .panicked ∧
    (∀ fuel, Message.deserialize fuel [0, 0, 0, 16, 0, 0, 0, 0, 0, 0, 0, 0] = .panicked) ∧
    Header.deserialize (bitsOf [0, 0, 0, 0, 0, 0, 0, 0, 0, 0, 0, 0])
      = .ok ([], ⟨0, false, .query, false, false, false, false, .noError, 0, 0, 0, 0⟩) :=
  ⟨by decide, fun _ => rfl, by decide⟩

/-- The 70-byte response of the spec: header id 33, one question for
blog.adamchalmers.com, and two A answer records whose names are the
compression pointer 0xC00C. -/
def dnsRespBytes : List Nat :=
  [0, 33, 129, 128, 0, 1, 0, 2, 0, 0, 0, 0,
   4, 98, 108, 111, 103,
   12, 97, 100, 97, 109, 99, 104, 97, 108, 109, 101, 114, 115,
   3, 99, 111, 109, 0,
   0, 1, 0, 1,
   192, 12, 0, 1, 0, 1, 0, 0, 0, 179, 0, 4, 104, 19, 237, 120,
   192, 12, 0, 1, 0, 1, 0, 0, 0, 179, 0, 4, 104, 19, 238, 120]

/-- The message the spec says the 70-byte response decodes to. -/
def dnsRespMsg : Message :=
  { header :=
    { id := 33, is_query := true, opcode := .query,
      authoritative_answer := false, truncation := false,
      recursion_desired := true, recursion_available := true,
      resp_code := .noError, question_count := 1, answer_count := 2,
      name_server_count := 0, additional_records_count := 0 }
    question := [⟨["blog", "adamchalmers", "com", ""], .a, .IN⟩]
    answer :=
      [⟨"blog.adamchalmers.com.", .IN, 179, .a 104 19 237 120⟩,
       ⟨"blog.adamchalmers.com.", .IN, 179, .a 104 19 238 120⟩]
    authority := []
    additional := [] }

/-- C5: decoding the 70-byte message of the spec succeeds and produces
header id 33 and two answer records named blog.adamchalmers.com. (via the
pointer at offset 12) carrying the A records 104.19.237.120 and
104.19.238.120, TTL 179 each. -/
theorem c5_compressed_response_decode :
    Message.deserialize 16 dnsRespBytes = .ok dnsRespMsg := by decide

/-- An A record (root name, class IN, TTL 0) whose declared RDATA length
is 5 while its A payload parser consumes only 4 bytes. -/
def c6Msg : List Nat := [0, 0, 1, 0, 1, 0, 0, 0, 0, 0, 5, 1, 2, 3, 4, 99]

/-- C6, counterexample: under-consumption of the declared RDATA length is
NOT a decode error.  The record below declares RDLENGTH 5, the A parser
consumes 4 bytes, and the record decode still succeeds, the surplus byte
being silently discarded. -/
theorem c6_under_consumption_accepted :
    parse_record c6Msg 2 c6Msg = .ok ([], ⟨"", .IN, 0, .a 1 2 3 4⟩) := by decide

/-- C6, amended: the RDATA parser is run on exactly the declared
RDLENGTH-byte window, so a parser that would need more bytes than
declared makes the record decode fail, and on success exactly the whole
window (plus the two length bytes) is consumed from the record stream;
but consuming fewer bytes than declared is not detected. -/
theorem c6_rdata_window (msg : List Nat) (fuel : Nat) (rt : RecordType)
    (l0 l1 : Nat) (rest r : List Nat) (rd : RecordData) :
    (length_value_rdata msg fuel rt (l0 :: l1 :: rest) = .ok (r, rd) →
      l0 * 256 + l1 ≤ rest.length ∧ r = rest.drop (l0 * 256 + l1)) ∧
    (parse_rdata msg fuel rt (rest.take (l0 * 256 + l1)) = .err →
      length_value_rdata msg fuel rt (l0 :: l1 :: rest) = .err) := by
  unfold length_value_rdata
  simp only [be_u16, PRes.bind_ok]
  by_cases hlen : rest.length < l0 * 256 + l1
  · rw [if_pos hlen]
    refine ⟨fun h => ?_, fun _ => rfl⟩
    exact nomatch h
  · rw [if_neg hlen]
    constructor
    · intro h
      cases hp : parse_rdata msg fuel rt (rest.take (l0 * 256 + l1)) <;> rw [hp] at h
      · simp only [PRes.ok.injEq, Prod.mk.injEq] at h
        exact ⟨by omega, h.1.symm⟩
      · cases h
      · cases h
      · cases h
    · intro hp
      rw [hp]

/-- C6, amended, witness at the record of the counterexample: the window
is fully present and exactly the declared five bytes are dropped. -/
theorem c6_rdata_window_witness :
    0 * 256 + 5 ≤ ([1, 2, 3, 4, 99] : List Nat).length ∧
    ([] : List Nat) = ([1, 2, 3, 4, 99] : List Nat).drop (0 * 256 + 5) :=
  (c6_rdata_window [] 0 .a 0 5 [1, 2, 3, 4, 99] [] (.a 1 2 3 4)).1 (by decide)

/-- A well-formed AAAA record: root name, class IN, TTL 60, RDATA length
16 and sixteen payload bytes. -/
def c7AaaaMsg : List Nat :=
  [0, 0, 28, 0, 1, 0, 0, 0, 60, 0, 16,
   0, 1, 2, 3, 4, 5, 6, 7, 8, 9, 10, 11, 12, 13, 14, 15]

/-- A buffer whose first five bytes spell the name foo. and whose record,
starting at offset 5, is an NS record whose RDATA is the compression
pointer 0xC000 back to offset 0. -/
def c7NsMsg : List Nat :=
  [3, 102, 111, 111, 0, 0, 0, 2, 0, 1, 0, 0, 0, 60, 0, 2, 192, 0]

/-- C7: the AAAA RDATA parser consumes exactly 16 bytes and yields the
IPv6 address they spell; the NS RDATA parser yields exactly one domain
name decoded against the whole-message buffer; and record decode succeeds
on the well-formed AAAA record above and on the NS record above, whose
compressed name resolves through the whole buffer. -/
theorem c7_aaaa_ns_rdata (msg data rest : List Nat) (fuel : Nat) (nm : String) :
    (16 ≤ data.length →
      parse_rdata msg fuel .aaaa data = .ok (data.drop 16, .aaaa (data.take 16))) ∧
    (parse_name msg fuel data = .ok (rest, nm) →
      parse_rdata msg fuel .ns data = .ok (rest, .ns nm)) ∧
    parse_record c7AaaaMsg 2 c7AaaaMsg
      = .ok ([], ⟨"", .IN, 60, .aaaa [0, 1, 2, 3, 4, 5, 6, 7, 8, 9, 10, 11, 12, 13, 14, 15]⟩) ∧
    parse_record c7NsMsg 8 (c7NsMsg.drop 5)
      = .ok ([], ⟨"", .IN, 60, .ns "foo."⟩) := by
  refine ⟨fun h => ?_, fun h => ?_, by decide, by decide⟩
  · simp only [parse_rdata, parse_rdata_aaaa]
    rw [if_neg (by omega)]
  · simp only [parse_rdata, parse_rdata_ns, h, PRes.bind_ok]

/-- C7, witness: the general parts applied to a concrete 16-byte AAAA
payload and to the compressed NS payload of the record above. -/
theorem c7_aaaa_ns_rdata_witness :
    parse_rdata [] 1 .aaaa [0, 1, 2, 3, 4, 5, 6, 7, 8, 9, 10, 11, 12, 13, 14, 15]
      = .ok ([], .aaaa [0, 1, 2, 3, 4, 5, 6, 7, 8, 9, 10, 11, 12, 13, 14, 15]) ∧
    parse_rdata [3, 102, 111, 111, 0] 8 .ns [192, 0] = .ok ([], .ns "foo.") :=
  ⟨(c7_aaaa_ns_rdata [] [0, 1, 2, 3, 4, 5, 6, 7, 8, 9, 10, 11, 12, 13, 14, 15]
      [] 1 "").1 (by decide),
   (c7_aaaa_ns_rdata [3, 102, 111, 111, 0] [192, 0] [] 8 "foo.").2.1 (by decide)⟩

/-- C8: a record whose 32-bit TTL field is at most 2^31 - 1 decodes and
carries that TTL; a TTL field above 2^31 - 1 makes the record decode
fail.  The record skeleton is a root name, type A, class IN and a
four-byte A RDATA. -/
theorem c8_ttl_bound (msg tail : List Nat) (fuel t0 t1 t2 t3 : Nat)
    (h0 : t0 < 256) (h1 : t1 < 256) (h2 : t2 < 256) (h3 : t3 < 256) :
    (((t0 * 256 + t1) * 256 + t2) * 256 + t3 ≤ 2147483647 →
      parse_record msg (fuel + 1)
          (0 :: 0 :: 1 :: 0 :: 1 :: t0 :: t1 :: t2 :: t3 :: 0 :: 4 :: 1 :: 2 :: 3 :: 4 :: tail)
        = .ok (tail, ⟨"", .IN, ((t0 * 256 + t1) * 256 + t2) * 256 + t3, .a 1 2 3 4⟩)) ∧
    (2147483647 < ((t0 * 256 + t1) * 256 + t2) * 256 + t3 →
      parse_record msg (fuel + 1)
          (0 :: 0 :: 1 :: 0 :: 1 :: t0 :: t1 :: t2 :: t3 :: 0 :: 4 :: 1 :: 2 :: 3 :: 4 :: tail)
        = .err) := by
  have hname : parse_name msg (fuel + 1)
      (0 :: 0 :: 1 :: 0 :: 1 :: t0 :: t1 :: t2 :: t3 :: 0 :: 4 :: 1 :: 2 :: 3 :: 4 :: tail)
      = .ok (0 :: 1 :: 0 :: 1 :: t0 :: t1 :: t2 :: t3 :: 0 :: 4 :: 1 :: 2 :: 3 :: 4 :: tail, "") :=
    rfl
  have hlv : length_value_rdata msg (fuel + 1) .a (0 :: 4 :: 1 :: 2 :: 3 :: 4 :: tail)
      = .ok (tail, .a 1 2 3 4) := by
    unfold length_value_rdata
    simp only [be_u16, PRes.bind_ok]
    rw [if_neg (by simp only [List.length_cons]; omega)]
    have htake : List.take (0 * 256 + 4) (1 :: 2 :: 3 :: 4 :: tail) = [1, 2, 3, 4] := rfl
    have hdrop : List.drop (0 * 256 + 4) (1 :: 2 :: 3 :: 4 :: tail) = tail := rfl
    rw [htake, hdrop]
    rfl
  constructor <;> intro h
  · unfold parse_record
    rw [hname]
    simp only [PRes.bind_ok, be_u16, be_u32, Nat.zero_mul, Nat.zero_add,
      RecordType.tryFrom, Class.tryFrom]
    rw [if_neg (not_lt.mpr h), hlv]
    rfl
  · unfold parse_record
    rw [hname]
    simp only [PRes.bind_ok, be_u16, be_u32, Nat.zero_mul, Nat.zero_add,
      RecordType.tryFrom, Class.tryFrom]
    rw [if_pos h]

/-- C8, witness: TTL 0x7FFFFFFF is accepted, TTL 0x80000000 is
rejected. -/
theorem c8_ttl_bound_witness :
    parse_record [] 1
        (0 :: 0 :: 1 :: 0 :: 1 :: 127 :: 255 :: 255 :: 255 :: 0 :: 4 :: 1 :: 2 :: 3 :: 4 :: [])
      = .ok ([], ⟨"", .IN, 2147483647, .a 1 2 3 4⟩) ∧
    parse_record [] 1
        (0 :: 0 :: 1 :: 0 :: 1 :: 128 :: 0 :: 0 :: 0 :: 0 :: 4 :: 1 :: 2 :: 3 :: 4 :: [])
      = .err :=
  ⟨(c8_ttl_bound [] [] 0 127 255 255 255 (by decide) (by decide) (by decide)
      (by decide)).1 (by decide),
   (c8_ttl_bound [] [] 0 128 0 0 0 (by decide) (by decide) (by decide)
      (by decide)).2 (by decide)⟩

theorem PRes.bind_eq_ok {α β : Type} {x : PRes α} {f : α → PRes β} {b : β}
    (h : PRes.bind x f = .ok b) : ∃ a, x = .ok a ∧ f a = .ok b := by
  cases x with
  | ok a => exact ⟨a, rfl, h⟩
  | err => exact nomatch h
  | panicked => exact nomatch h
  | diverged => exact nomatch h

theorem countEntries_length : ∀ (n : Nat) (i r : List Nat) (es : List Entry),
    countEntries n i = .ok (r, es) → es.length = n := by
  intro n
  induction n with
  | zero =>
    intro i r es h
    simp only [countEntries, PRes.ok.injEq, Prod.mk.injEq] at h
    rw [← h.2]
    rfl
  | succ m ih =>
    intro i r es h
    simp only [countEntries] at h
    obtain ⟨⟨i1, e⟩, h1, h2⟩ := PRes.bind_eq_ok h
    obtain ⟨⟨i2, es2⟩, h3, h4⟩ := PRes.bind_eq_ok h2
    simp only [PRes.ok.injEq, Prod.mk.injEq] at h4
    rw [← h4.2, List.length_cons, ih i1 i2 es2 h3]

theorem countRecords_length (msg : List Nat) (fuel : Nat) :
    ∀ (n : Nat) (i r : List Nat) (rs : List Record),
    countRecords msg fuel n i = .ok (r, rs) → rs.length = n := by
  intro n
  induction n with
  | zero =>
    intro i r rs h
    simp only [countRecords, PRes.ok.injEq, Prod.mk.injEq] at h
    rw [← h.2]
    rfl
  | succ m ih =>
    intro i r rs h
    simp only [countRecords] at h
    obtain ⟨⟨i1, e⟩, h1, h2⟩ := PRes.bind_eq_ok h
    obtain ⟨⟨i2, rs2⟩, h3, h4⟩ := PRes.bind_eq_ok h2
    simp only [PRes.ok.injEq, Prod.mk.injEq] at h4
    rw [← h4.2, List.length_cons, ih i1 i2 rs2 h3]

/-- C9: after every successful decode the header counts equal the lengths
of the decoded sections, and a freshly built query carries, by
construction, question_count 1 with exactly one question entry and zero
counts with empty lists everywhere else. -/
theorem c9_counts_invariant (fuel : Nat) (input : List Nat) (m m2 : Message)
    (id : Nat) (s : String) (rt : RecordType)
    (hdec : Message.deserialize fuel input = .ok m)
    (henc : Message.new_query id s rt = .ok m2) :
    (m.question.length = m.header.question_count ∧
     m.answer.length = m.header.answer_count ∧
     m.authority.length = m.header.name_server_count ∧
     m.additional.length = m.header.additional_records_count) ∧
    (m2.header.question_count = 1 ∧ m2.question.length = 1 ∧
     m2.header.answer_count = 0 ∧ m2.answer = [] ∧
     m2.header.name_server_count = 0 ∧ m2.authority = [] ∧
     m2.header.additional_records_count = 0 ∧ m2.additional = []) := by
  constructor
  · unfold Message.deserialize at hdec
    cases hpm : parse_message input fuel input <;> rw [hpm] at hdec
    case ok p =>
      obtain ⟨r, msg⟩ := p
      have hm : PRes.ok msg = PRes.ok m := hdec
      injection hm with hm
      subst hm
      unfold parse_message at hpm
      cases hH : Header.deserialize (bitsOf input) <;> rw [hH] at hpm
      case ok q =>
        obtain ⟨rb, hd⟩ := q
        have hpm2 : PRes.bind (countEntries hd.question_count (input.drop 12))
            (fun (x : List Nat × List Entry) =>
              PRes.bind (countRecords input fuel hd.answer_count x.1) fun y =>
              PRes.bind (countRecords input fuel hd.name_server_count y.1) fun z =>
              PRes.bind (countRecords input fuel hd.additional_records_count z.1) fun w =>
              .ok (w.1, ⟨hd, x.2, y.2, z.2, w.2⟩)) = .ok (r, msg) := hpm
        obtain ⟨⟨i1, qs⟩, hq, hrest⟩ := PRes.bind_eq_ok hpm2
        obtain ⟨⟨i2, ans⟩, ha, hrest2⟩ := PRes.bind_eq_ok hrest
        obtain ⟨⟨i3, auth⟩, hu, hrest3⟩ := PRes.bind_eq_ok hrest2
        obtain ⟨⟨i4, add⟩, hd4, hrest4⟩ := PRes.bind_eq_ok hrest3
        simp only [PRes.ok.injEq, Prod.mk.injEq] at hrest4
        rw [← hrest4.2]
        exact ⟨countEntries_length _ _ _ _ hq,
          countRecords_length _ _ _ _ _ _ ha,
          countRecords_length _ _ _ _ _ _ hu,
          countRecords_length _ _ _ _ _ _ hd4⟩
      case err => exact nomatch hpm
      case panicked => exact nomatch hpm
      case diverged => exact nomatch hpm
    case err => exact nomatch hdec
    case panicked => exact nomatch hdec
    case diverged => exact nomatch hdec
  · unfold Message.new_query at henc
    split at henc
    · exact nomatch henc
    · split at henc
      · exact nomatch henc
      · split at henc
        · exact nomatch henc
        · injection henc with h
          subst h
          exact ⟨rfl, rfl, rfl, rfl, rfl, rfl, rfl, rfl⟩

/-- The query message Message::new_query builds for
blog.adamchalmers.com. with id 33. -/
def c9QueryMsg : Message :=
  ⟨Header.new_query 33, [⟨["blog", "adamchalmers", "com", ""], .a, .IN⟩], [], [], []⟩

/-- C9, witness: the decoded 70-byte response has counts 1, 2, 0, 0
matching its sections, and a concrete query has count 1 and one entry. -/
theorem c9_counts_invariant_witness :
    (dnsRespMsg.question.length = dnsRespMsg.header.question_count ∧
     dnsRespMsg.answer.length = dnsRespMsg.header.answer_count ∧
     dnsRespMsg.authority.length = dnsRespMsg.header.name_server_count ∧
     dnsRespMsg.additional.length = dnsRespMsg.header.additional_records_count) ∧
    (c9QueryMsg.header.question_count = 1 ∧ c9QueryMsg.question.length = 1 ∧
     c9QueryMsg.header.answer_count = 0 ∧ c9QueryMsg.answer = [] ∧
     c9QueryMsg.header.name_server_count = 0 ∧ c9QueryMsg.authority = [] ∧
     c9QueryMsg.header.additional_records_count = 0 ∧ c9QueryMsg.additional = []) :=
  c9_counts_invariant 16 dnsRespBytes dnsRespMsg c9QueryMsg 33
    "blog.adamchalmers.com." .a (by decide) (by decide)

theorem splitDot_single_nil (l : List Char) (h : splitDot l = [[]]) : l = [] := by
  cases l with
  | nil => rfl
  | cons c rest =>
    unfold splitDot at h
    by_cases hc : c = '.'
    · rw [if_pos hc] at h
      injection h with h1 h2
      exact absurd h2 (splitDot_ne_nil rest)
    · rw [if_neg hc] at h
      rcases hsp : splitDot rest with _ | ⟨l1, ls⟩
      · exact absurd hsp (splitDot_ne_nil rest)
      · rw [hsp] at h
        injection h with h1 h2
        exact nomatch h1

/-- The last dot-split piece of a nonempty character list is empty
exactly when the list ends with a dot. -/
theorem splitDot_last_iff : ∀ (l : List Char), l ≠ [] →
    ((splitDot l).getLast? = some [] ↔ l.getLast? = some '.') := by
  intro l
  induction l with
  | nil => intro h; exact absurd rfl h
  | cons c rest ih =>
    intro _
    cases rest with
    | nil =>
      by_cases hc : c = '.'
      · subst hc; decide
      · unfold splitDot
        rw [if_neg hc]
        simp only [splitDot]
        constructor
        · intro hx
          simp only [List.getLast?_singleton, Option.some.injEq] at hx
          exact nomatch hx
        · intro hx
          simp only [List.getLast?_singleton, Option.some.injEq] at hx
          exact absurd hx hc
    | cons c2 rest2 =>
      rw [List.getLast?_cons_cons]
      have hih := ih (by simp)
      unfold splitDot
      by_cases hc : c = '.'
      · rw [if_pos hc]
        rcases hsp : splitDot (c2 :: rest2) with _ | ⟨l1, ls⟩
        · exact absurd hsp (splitDot_ne_nil (c2 :: rest2))
        · rw [hsp] at hih
          rw [List.getLast?_cons_cons]
          exact hih
      · rw [if_neg hc]
        rcases hsp : splitDot (c2 :: rest2) with _ | ⟨l1, ls⟩
        · exact absurd hsp (splitDot_ne_nil (c2 :: rest2))
        · rw [hsp] at hih
          cases ls with
          | nil =>
            constructor
            · intro hx
              simp only [List.getLast?_singleton, Option.some.injEq] at hx
              exact nomatch hx
            · intro hx
              have hl1 : l1 = [] := by
                have := hih.mpr hx
                simpa using this
              subst hl1
              have : (c2 :: rest2 : List Char) = [] :=
                splitDot_single_nil (c2 :: rest2) hsp
              exact nomatch this
          | cons x xs =>
            rw [List.getLast?_cons_cons]
            rw [List.getLast?_cons_cons] at hih
            exact hih

theorem qnameBytes_ne_nil (labels : List String) (h : labels ≠ []) :
    qnameBytes labels ≠ [] := by
  cases labels with
  | nil => exact absurd rfl h
  | cons l ls => simp [qnameBytes]

/-- The serialized qname ends with a zero byte exactly when the last
label is empty, provided no label contains a NUL character. -/
theorem qnameBytes_last_iff : ∀ (labels : List String), labels ≠ [] →
    (∀ l ∈ labels, ∀ c ∈ l.data, 0 < c.toNat) →
    ((qnameBytes labels).getLast? = some 0 ↔ labels.getLast? = some "") := by
  intro labels
  induction labels with
  | nil => intro h; exact absurd rfl h
  | cons l ls ih =>
    intro _ hz
    cases ls with
    | nil =>
      by_cases hl : l = ""
      · subst hl; decide
      · have hdata : l.data ≠ [] := by
          intro hd
          apply hl
          cases l with
          | mk d =>
            simp only at hd
            rw [hd]
        have hbytes : bytesOfString l ≠ [] := by
          simp only [bytesOfString, ne_eq, List.map_eq_nil_iff]
          exact hdata
        simp only [qnameBytes, List.append_nil]
        rw [show (l.length :: bytesOfString l : List Nat)
            = [l.length] ++ bytesOfString l from rfl]
        rw [List.getLast?_append_of_ne_nil [l.length] hbytes]
        simp only [List.getLast?_singleton]
        constructor
        · intro hx
          rcases hgl : l.data.getLast? with _ | c
          · exact absurd (List.getLast?_eq_none_iff.mp hgl) hdata
          · have hcz : c.toNat = 0 := by
              rw [bytesOfString, List.getLast?_map, hgl] at hx
              simpa using hx
            have := hz l (by simp) c (List.mem_of_mem_getLast? hgl)
            omega
        · intro hx
          simp only [Option.some.injEq] at hx
          exact absurd hx hl
    | cons l2 ls2 =>
      rw [List.getLast?_cons_cons]
      have hih := ih (by simp)
        (fun x hx => hz x (List.mem_cons_of_mem l hx))
      rw [show qnameBytes (l :: l2 :: ls2)
          = (l.length :: bytesOfString l) ++ qnameBytes (l2 :: ls2) from rfl]
      rw [List.getLast?_append_of_ne_nil _ (qnameBytes_ne_nil (l2 :: ls2) (by simp))]
      exact hih

/-- C10: the codec itself appends no root label.  Message::new_query
accepts any well-formed ASCII name whether or not it ends with a dot, the
question serializer writes exactly the length-prefixed labels, and the
encoded QNAME ends with the 0x00 terminator exactly when the supplied
name string ends with a dot; only the CLI layer of cli.rs appends a
missing trailing dot before the codec runs. -/
theorem c10_no_implicit_root_label (id : Nat) (s : String) (rt : RecordType)
    (hlen : s.length ≤ 255)
    (hascii : ∀ c ∈ s.data, 0 < c.toNat ∧ c.toNat < 128)
    (hbound : ∀ l ∈ stringSplitDot s, l.length ≤ 63)
    (hne : s.data ≠ []) :
    Message.new_query id s rt
      = .ok ⟨Header.new_query id, [Entry.new (stringSplitDot s) rt], [], [], []⟩ ∧
    serialize_qname (stringSplitDot s) = .ok (qnameBytes (stringSplitDot s)) ∧
    ((qnameBytes (stringSplitDot s)).getLast? = some 0 ↔
      s.data.getLast? = some '.') ∧
    (cli_normalize_name s).data.getLast? = some '.' := by
  have hlabels_ne : stringSplitDot s ≠ [] := by
    simp only [stringSplitDot, ne_eq, List.map_eq_nil_iff]
    exact splitDot_ne_nil s.data
  have hz : ∀ l ∈ stringSplitDot s, ∀ c ∈ l.data, 0 < c.toNat := by
    intro l hl c hc
    simp only [stringSplitDot, List.mem_map] at hl
    obtain ⟨p, hp, rfl⟩ := hl
    exact (hascii c (splitDot_chars s.data p hp c hc)).1
  refine ⟨new_query_ok id s rt hlen (fun c hc => (hascii c hc).2) hbound,
    serialize_qname_eq _ hbound, ?_, ?_⟩
  · rw [qnameBytes_last_iff (stringSplitDot s) hlabels_ne hz]
    rw [show (stringSplitDot s).getLast? = (splitDot s.data).getLast?.map
        (fun l => String.mk l) from List.getLast?_map _ _]
    rw [← splitDot_last_iff s.data hne]
    rcases hsp : (splitDot s.data).getLast? with _ | p
    · simp
    · constructor
      · intro hx
        have hx2 : String.mk p = "" := Option.some.inj hx
        have hdx : p = [] := congrArg String.data hx2
        rw [hdx]
      · intro hx
        have hdx : p = [] := Option.some.inj hx
        subst hdx
        rfl
  · unfold cli_normalize_name
    by_cases hdot : s.data.getLast? = some '.'
    · rw [if_pos hdot]
      exact hdot
    · rw [if_neg hdot]
      rw [show (s ++ ".").data = s.data ++ ['.'] from rfl]
      exact List.getLast?_concat s.data

/-- C10, witness at the dotless name foo.com: the query is accepted, the
qname is 3 f o o 3 c o m with no trailing zero byte, and the CLI layer
would append the missing dot. -/
theorem c10_no_implicit_root_label_witness :
    Message.new_query 7 "foo.com" .a
      = .ok ⟨Header.new_query 7, [Entry.new (stringSplitDot "foo.com") .a], [], [], []⟩ ∧
    serialize_qname (stringSplitDot "foo.com")
      = .ok (qnameBytes (stringSplitDot "foo.com")) ∧
    ((qnameBytes (stringSplitDot "foo.com")).getLast? = some 0 ↔
      ("foo.com" : String).data.getLast? = some '.') ∧
    (cli_normalize_name "foo.com").data.getLast? = some '.' :=
  c10_no_implicit_root_label 7 "foo.com" .a (by decide) (by decide) (by decide)
    (by decide)

end Dingo
